import Mathlib

/-!
Verification of the hardware-encoder discovery / validation / caching engine
of the adobe-connect-downloader repository (`src/detector/`).

The Python source is shallowly embedded: pure logic becomes Lean functions,
exceptions become `Except`, side effects on the in-memory cache become
explicit state passing, and external effects (subprocess runs, the file
system, the clock) become explicit oracle parameters.  Each definition below
mirrors one Python function and keeps its name.
-/

/-- `device_id` values in the source are heterogeneous: integers for NVENC
device indices, strings (`'cpu'`, `'qsv'`, `/dev/dri` paths) elsewhere. -/
inductive DeviceId where
  | idx (n : Nat)
  | str (s : String)
deriving DecidableEq, Repr

/-- The command-builder objects attached to encoders
(`detector/encoders/*.py`); each is determined by its class and its bound
device parameters. -/
inductive CommandBuilder where
  | cpu
  | nvenc (device_index : Nat)
  | vaapi (device_path : String)
  | qsv
deriving DecidableEq, Repr

/-- `Encoder` dataclass from `detector/interfaces.py`. -/
structure Encoder where
  name : String
  device_id : DeviceId
  device_name : String
  priority : Int
  command_builder : CommandBuilder
deriving DecidableEq, Repr

/-! ### Python `dict` model

Python dictionaries preserve first-insertion order of keys; assigning to an
existing key replaces the value but keeps the key's position; `del` removes
the key.  We model a dict as an association list in key-insertion order. -/

/-- Lookup in the association-list model of a Python dict. -/
def dlookup {α : Type} (k : String) : List (String × α) → Option α
  | [] => none
  | p :: t => if p.1 = k then some p.2 else dlookup k t

/-- `d[k] = v` on a Python dict: replace in place if the key is present,
else append at the end. -/
def dictInsert {α : Type} (d : List (String × α)) (k : String) (v : α) :
    List (String × α) :=
  if d.any (fun p => p.1 == k) then
    d.map (fun p => if p.1 == k then (k, v) else p)
  else d ++ [(k, v)]

/-- `del d[k]` on a Python dict. -/
def dictErase {α : Type} (d : List (String × α)) (k : String) :
    List (String × α) :=
  d.filter (fun p => p.1 != k)

/-! ### Discoverers (`detector/discovery/`)

Each discoverer probes the OS; the probe results are oracle inputs collected
in `SysEnv`.  A discoverer that raises is modelled as returning `.error`. -/

/-- The observable system state the discoverers probe: `platform.system()`
(lower-cased), `shutil.which` results, probe-command outcomes
(`.error` = the wrapped `HardwareDiscoveryError` from
`BaseDiscoverer.run_subprocess`), and the `/dev/dri` listing. -/
structure SysEnv where
  system : String
  hasNvidiaSmi : Bool
  nvidiaSmiOutput : Except String String
  hasVainfo : Bool
  hasDevDri : Bool
  devDriListing : Except String (List String)
  hasLspci : Bool
  lspciOutput : Except String String

/-- `CpuDiscoverer.discover` (`detector/discovery/cpu.py`): unconditionally
returns the single software-x264 fallback encoder. -/
def CpuDiscoverer.discover : List Encoder :=
  [{ name := "libx264", device_id := .str "cpu", device_name := "CPU (libx264)",
     priority := 10, command_builder := .cpu }]

/-- `NvencDiscoverer.discover` (`detector/discovery/nvenc.py`).  Probe
failure (`HardwareDiscoveryError`) is caught and degrades to a single
best-guess encoder on device 0; the method itself never raises. -/
def NvencDiscoverer.discover (env : SysEnv) : Except String (List Encoder) :=
  if env.system != "linux" || !env.hasNvidiaSmi then .ok []
  else
    match env.nvidiaSmiOutput with
    | .ok output =>
      let names := (output.trim.splitOn "\n").filter (fun n => n != "")
      .ok (names.enum.map (fun p =>
        { name := "h264_nvenc", device_id := .idx p.1,
          device_name := "NVENC on " ++ p.2, priority := 1,
          command_builder := .nvenc p.1 }))
    | .error _ =>
      .ok [{ name := "h264_nvenc", device_id := .idx 0,
             device_name := "NVENC on GPU 0", priority := 1,
             command_builder := .nvenc 0 }]

/-- `VaapiDiscoverer.discover` (`detector/discovery/vaapi.py`).  A failing
`/dev/dri` listing is re-raised as `HardwareDiscoveryError` (`.error`). -/
def VaapiDiscoverer.discover (env : SysEnv) : Except String (List Encoder) :=
  if env.system != "linux" || !env.hasVainfo || !env.hasDevDri then .ok []
  else
    match env.devDriListing with
    | .ok entries =>
      let render_nodes :=
        (entries.filter (fun d => d.startsWith "renderD")).mergeSort
          (fun a b => decide (a ≤ b))
      .ok (render_nodes.map (fun d =>
        { name := "h264_vaapi", device_id := .str ("/dev/dri/" ++ d),
          device_name := "VAAPI on " ++ d, priority := 2,
          command_builder := .vaapi ("/dev/dri/" ++ d) }))
    | .error e => .error ("An unexpected error occurred during VAAPI discovery: " ++ e)

/-- `QsvDiscoverer.discover` (`detector/discovery/qsv.py`).  A failing
`lspci` probe (`HardwareDiscoveryError`) is caught and yields `[]`. -/
def QsvDiscoverer.discover (env : SysEnv) : Except String (List Encoder) :=
  if env.system != "linux" || !env.hasLspci then .ok []
  else
    match env.lspciOutput with
    | .ok out =>
      if decide ("vga compatible controller: intel corporation".toList <:+:
          out.toLower.toList) then
        .ok [{ name := "h264_qsv", device_id := .str "qsv",
               device_name := "Intel Quick Sync (QSV)", priority := 2,
               command_builder := .qsv }]
      else .ok []
    | .error _ => .ok []

/-! ### Discovery Service (`detector/discovery/__init__.py`) -/

/-- The `all_encoders` accumulation loop of `DiscoveryService.discover_all`:
each discoverer's list is appended; a discoverer that raised (`.error`) is
logged and contributes nothing. -/
def allEncoders (results : List (Except String (List Encoder))) : List Encoder :=
  results.foldl (fun acc r => match r with | .ok l => acc ++ l | .error _ => acc) []

/-- Comparator for `sorted(..., key=lambda x: x.priority, reverse=True)`:
Python's stable descending sort by priority. -/
def le_desc (a b : Encoder) : Bool := decide (b.priority ≤ a.priority)

/-- Comparator for `sorted(..., key=lambda x: x.priority)`. -/
def le_asc (a b : Encoder) : Bool := decide (a.priority ≤ b.priority)

/-- `DiscoveryService.discover_all`, parameterised by the outcome of each
registered discoverer: concatenate, sort by priority descending (stable),
fold into a dict keyed by `device_name` (later entries overwrite), then sort
the dict's values by priority ascending. -/
def DiscoveryService.discover_all
    (results : List (Except String (List Encoder))) : List Encoder :=
  let sortedDesc := (allEncoders results).mergeSort le_desc
  let unique := sortedDesc.foldl (fun d e => dictInsert d e.device_name e) []
  (unique.map Prod.snd).mergeSort le_asc

/-- The registered discoverer list of `DiscoveryService.__init__`, in order:
NVENC, VAAPI, QSV, CPU (the CPU fallback is always last). -/
def DiscoveryService.runDiscoverers (env : SysEnv) :
    List (Except String (List Encoder)) :=
  [NvencDiscoverer.discover env, VaapiDiscoverer.discover env,
   QsvDiscoverer.discover env, .ok CpuDiscoverer.discover]

/-- `discover_all` on the actually registered discoverers. -/
def DiscoveryService.discover_all_env (env : SysEnv) : List Encoder :=
  DiscoveryService.discover_all (DiscoveryService.runDiscoverers env)

/-! ### Validator (`detector/validation.py`)

`_run_ffmpeg_test` spawns one ffmpeg test-encode process; it returns `True`
when the process exits 0 within the timeout and otherwise raises
`EncoderValidationError` (nonzero exit and timeout both raise).  The outcome
of a spawn on a given input path is the oracle `attemptOk`.
`validate` first consults the memoized supported-encoder set (the oracle
`supported`, holding the parsed `ffmpeg -encoders` result), then runs the
primary attempt against the original video and — only if that call returns
falsy without raising — the fallback attempt against the pre-converted clip
when it exists on disk.  The surrounding `try/except` converts any raised
`EncoderValidationError` (or unexpected exception) into `None`. -/

/-- `EncoderValidator._run_ffmpeg_test`: `.ok true` on exit code 0 within
the timeout, `.error` (a raised `EncoderValidationError`) otherwise.  No
code path returns `.ok false`. -/
def run_ffmpeg_test (attemptOk : String → Bool) (encoder : Encoder)
    (video_path : String) : Except String Bool :=
  if attemptOk video_path then .ok true
  else .error (encoder.device_name ++ " failed on " ++ video_path)

/-- `EncoderValidator.validate`, instrumented with the number of
test-encode processes spawned (one per `_run_ffmpeg_test` call).
`supported` is the memoized `_supported_ffmpeg_encoders` set,
`convExists` is `os.path.exists(converted_video_path)`. -/
def EncoderValidator.validate (supported : String → Bool)
    (attemptOk : String → Bool) (convExists : Bool) (encoder : Encoder)
    (original_video_path converted_video_path : String) :
    Option Encoder × Nat :=
  if !supported encoder.name then (none, 0)
  else
    match run_ffmpeg_test attemptOk encoder original_video_path with
    | .ok true => (some encoder, 1)
    | .ok false =>
      if convExists then
        match run_ffmpeg_test attemptOk encoder converted_video_path with
        | .ok true => (some encoder, 2)
        | .ok false => (none, 2)
        | .error _ => (none, 2)
      else (none, 1)
    | .error _ => (none, 1)

/-! ### Cache (`detector/caching.py`) -/

/-- `ValidationConfig` from `detector/config.py` (defaults from the
source; timestamps and durations modelled as integers). -/
structure ValidationConfig where
  test_duration : Int := 2
  timeout : Int := 45
  cache_expiry_seconds : Int := 3600
  video_hash_chunk_size : Nat := 4096
deriving DecidableEq, Repr

/-- `CacheEntry` dataclass. -/
structure CacheEntry where
  encoders : List Encoder
  timestamp : Int
deriving DecidableEq, Repr

/-- The `_cache` dict of `EncoderCache`. -/
abbrev CacheDict : Type := List (String × CacheEntry)

/-- `EncoderCache.get`: return the stored list only when the entry exists
and `now - entry.timestamp < cache_expiry_seconds`; an expired entry is
deleted as a side effect.  Returns (result, cache state afterwards). -/
def EncoderCache.get (config : ValidationConfig) (cache : CacheDict)
    (now : Int) (video_hash : String) : Option (List Encoder) × CacheDict :=
  match dlookup video_hash cache with
  | some entry =>
    if now - entry.timestamp < config.cache_expiry_seconds then
      (some entry.encoders, cache)
    else (none, dictErase cache video_hash)
  | none => (none, cache)

/-- `EncoderCache.set`: unconditionally store/replace with the current
timestamp. -/
def EncoderCache.set (cache : CacheDict) (now : Int) (video_hash : String)
    (encoders : List Encoder) : CacheDict :=
  dictInsert cache video_hash { encoders := encoders, timestamp := now }

/-- Failure modes of Python `open`: `FileNotFoundError` is the only one
`get_video_hash` catches; any other `OSError` (e.g. `PermissionError`)
propagates out of the method. -/
inductive OpenErr where
  | notFound
  | permissionDenied
deriving DecidableEq, Repr

/-- The chunked read loop of `EncoderCache.get_video_hash`: up to `n` reads
of `chunkSize` bytes, stopping at the first empty read; returns the byte
sequence fed to the hasher. -/
def readChunks : Nat → Nat → List Nat → List Nat
  | 0, _, _ => []
  | n + 1, chunkSize, f =>
    if f.take chunkSize = [] then []
    else f.take chunkSize ++ readChunks n chunkSize (f.drop chunkSize)

/-- `EncoderCache.get_video_hash`: hash the first 64 chunks of
`video_hash_chunk_size` bytes of the file.  The file oracle is either the
file's bytes or an open failure; `hash` abstracts SHA-256 hex-digesting.
A `FileNotFoundError` is caught (→ `.ok none`); any other open failure
propagates (→ `.error`). -/
def EncoderCache.get_video_hash (hash : List Nat → String) (chunkSize : Nat)
    (file : Except OpenErr (List Nat)) : Except OpenErr (Option String) :=
  match file with
  | .ok bytes => .ok (some (hash (readChunks 64 chunkSize bytes)))
  | .error .notFound => .ok none
  | .error e => .error e

/-! ### Detector orchestrator (`detector/detector.py`) -/

/-- Observable outcome of one `find_and_validate_functional_encoders` call:
the returned list, the cache state afterwards, and instrumentation counting
calls to `discovery.discover_all`, to `validator.validate`, and to
`cache.set`. -/
structure FindResult where
  encoders : List Encoder
  cache : CacheDict
  discoveryCalls : Nat
  validationCalls : Nat
  cacheWrites : Nat
deriving Repr

/-- `HardwareDetector.find_and_validate_functional_encoders`.  Oracles:
`hashOf` is `cache.get_video_hash`, `discoverResults` the registered
discoverers' outcomes, `validatorResult` the per-candidate outcome of
`validator.validate`.  A cache hit short-circuits; otherwise discovery runs,
every candidate is validated, survivors are sorted by priority ascending,
and the result is cached only when non-empty and a fingerprint existed. -/
def HardwareDetector.find_and_validate_functional_encoders
    (config : ValidationConfig) (cache : CacheDict) (now : Int)
    (hashOf : String → Option String)
    (discoverResults : List (Except String (List Encoder)))
    (validatorResult : Encoder → Option Encoder)
    (video_file_path : String) : FindResult :=
  let fresh : CacheDict → FindResult := fun cache1 =>
    let potential_encoders := DiscoveryService.discover_all discoverResults
    let results := potential_encoders.map validatorResult
    let functional_encoders :=
      (results.filterMap id).mergeSort le_asc
    if functional_encoders.isEmpty then
      { encoders := functional_encoders, cache := cache1, discoveryCalls := 1,
        validationCalls := potential_encoders.length, cacheWrites := 0 }
    else
      match hashOf video_file_path with
      | some h =>
        { encoders := functional_encoders,
          cache := EncoderCache.set cache1 now h functional_encoders,
          discoveryCalls := 1, validationCalls := potential_encoders.length,
          cacheWrites := 1 }
      | none =>
        { encoders := functional_encoders, cache := cache1,
          discoveryCalls := 1, validationCalls := potential_encoders.length,
          cacheWrites := 0 }
  match hashOf video_file_path with
  | some h =>
    match EncoderCache.get config cache now h with
    | (some cached_encoders, cache1) =>
      { encoders := cached_encoders, cache := cache1, discoveryCalls := 0,
        validationCalls := 0, cacheWrites := 0 }
    | (none, cache1) => fresh cache1
  | none => fresh cache

/-! ### Concrete sample data

Closed inputs used to instantiate the theorems below on concrete runs. -/

/-- Sample NVENC-style encoder for device name `DEV` with priority 2. -/
def encDevA : Encoder :=
  { name := "h264_nvenc", device_id := .idx 0, device_name := "DEV",
    priority := 2, command_builder := .nvenc 0 }

/-- Sample VAAPI-style encoder for the same device name with priority 1. -/
def encDevB : Encoder :=
  { name := "h264_vaapi", device_id := .str "/dev/dri/renderD128",
    device_name := "DEV", priority := 1,
    command_builder := .vaapi "/dev/dri/renderD128" }

/-- Sample QSV-style encoder, same device name, same minimal priority 1,
contributed later than `encDevB`. -/
def encDevC : Encoder :=
  { name := "h264_qsv", device_id := .str "qsv", device_name := "DEV",
    priority := 1, command_builder := .qsv }

/-- The CPU fallback encoder value from `CpuDiscoverer.discover`. -/
def encCpu : Encoder :=
  { name := "libx264", device_id := .str "cpu", device_name := "CPU (libx264)",
    priority := 10, command_builder := .cpu }

/-- The best-guess encoder `NvencDiscoverer.discover` falls back to when
its probe command fails: device 0, priority 1. -/
def encNvFallback : Encoder :=
  { name := "h264_nvenc", device_id := .idx 0, device_name := "NVENC on GPU 0",
    priority := 1, command_builder := .nvenc 0 }

/-- Sample discoverer outcomes: duplicates of `DEV` with differing and with
equal priorities, one failed discoverer, and the CPU fallback. -/
def sampleResults : List (Except String (List Encoder)) :=
  [.ok [encDevA, encDevB], .error "probe failed", .ok [encDevC, encCpu]]

/-- Sample environment on which no GPU discoverer precondition holds. -/
def sampleEnv : SysEnv :=
  { system := "windows", hasNvidiaSmi := false, nvidiaSmiOutput := .error "absent",
    hasVainfo := false, hasDevDri := false, devDriListing := .ok [],
    hasLspci := false, lspciOutput := .ok "" }

/-- Sample Linux environment where `nvidia-smi` exists but its probe
command fails. -/
def sampleEnvNvFail : SysEnv :=
  { system := "linux", hasNvidiaSmi := true,
    nvidiaSmiOutput := .error "nvidia-smi exited with status 1",
    hasVainfo := false, hasDevDri := false, devDriListing := .ok [],
    hasLspci := false, lspciOutput := .ok "" }

/-- A cache holding one entry, written at time 100, for the detector
witnesses. -/
def sampleCacheLive : CacheDict := [("vhash", { encoders := [encCpu], timestamp := 100 })]

/-- A cache holding one entry written at time 0, expired by time 4000
under the default one-hour expiry. -/
def sampleCacheStale : CacheDict := [("vhash", { encoders := [encCpu], timestamp := 0 })]

/-! ### Dictionary lemmas -/

/-- Keys of the dict model, in insertion order. -/
def keysOf {α : Type} (d : List (String × α)) : List String := d.map Prod.fst

theorem dlookup_nil {α : Type} (k : String) :
    dlookup k ([] : List (String × α)) = none := rfl

theorem dlookup_append {α : Type} (k : String) (d l : List (String × α)) :
    dlookup k (d ++ l) = (dlookup k d).or (dlookup k l) := by
  induction d with
  | nil => simp [dlookup, Option.or]
  | cons p t ih =>
    by_cases h : p.1 = k <;> simp [dlookup, h, ih, Option.or]

theorem dlookup_eq_none {α : Type} (k : String) (d : List (String × α)) :
    dlookup k d = none ↔ ∀ p ∈ d, p.1 ≠ k := by
  induction d with
  | nil => simp [dlookup]
  | cons p t ih =>
    by_cases h : p.1 = k <;> simp [dlookup, h, ih]

theorem dlookup_mapReplace_ne {α : Type} (t : List (String × α)) (k k' : String)
    (v : α) (hne : k ≠ k') :
    dlookup k' (t.map (fun p => if p.1 == k then (k, v) else p)) = dlookup k' t := by
  induction t with
  | nil => rfl
  | cons p r ih =>
    simp only [beq_iff_eq] at ih
    simp only [List.map_cons]
    by_cases h : p.1 = k
    · rw [if_pos (beq_iff_eq.mpr h)]
      have hk : k ≠ k' := hne
      simp [dlookup, ih, hne, h, hk]
    · rw [if_neg (by simpa using h)]
      by_cases h2 : p.1 = k' <;> simp [dlookup, h2, ih]

theorem dlookup_mapReplace_self {α : Type} (t : List (String × α)) (k : String)
    (v : α) (hany : t.any (fun p => p.1 == k) = true) :
    dlookup k (t.map (fun p => if p.1 == k then (k, v) else p)) = some v := by
  induction t with
  | nil => simp at hany
  | cons p r ih =>
    simp only [beq_iff_eq] at ih
    simp only [List.map_cons]
    by_cases h : p.1 = k
    · rw [if_pos (beq_iff_eq.mpr h)]
      simp [dlookup]
    · rw [if_neg (by simpa using h)]
      have h1 : (p.1 == k) = false := beq_eq_false_iff_ne.mpr h
      simp only [List.any_cons, h1, Bool.false_or] at hany
      simp [dlookup, h, ih hany]

theorem dlookup_dictInsert {α : Type} (d : List (String × α)) (k : String) (v : α)
    (k' : String) :
    dlookup k' (dictInsert d k v) = if k = k' then some v else dlookup k' d := by
  unfold dictInsert
  by_cases hany : d.any (fun p => p.1 == k) = true
  · rw [if_pos hany]
    by_cases hkk : k = k'
    · subst hkk
      rw [if_pos rfl, dlookup_mapReplace_self d k v hany]
    · rw [if_neg hkk, dlookup_mapReplace_ne d k k' v hkk]
  · rw [if_neg hany, dlookup_append]
    have hnone : ∀ p ∈ d, p.1 ≠ k := by
      intro p hp
      have := List.any_eq_false.mp (Bool.eq_false_iff.mpr hany) p hp
      simpa using this
    by_cases hkk : k = k'
    · subst hkk
      rw [(dlookup_eq_none k d).mpr hnone]
      simp [dlookup, Option.or]
    · have : dlookup k' [(k, v)] = none := by simp [dlookup, hkk]
      rw [this, Option.or_none, if_neg hkk]

theorem keysOf_dictInsert_of_any {α : Type} (d : List (String × α)) (k : String)
    (v : α) (hany : d.any (fun p => p.1 == k) = true) :
    keysOf (dictInsert d k v) = keysOf d := by
  unfold dictInsert
  rw [if_pos hany]
  unfold keysOf
  rw [List.map_map]
  apply List.map_congr_left
  intro p _
  by_cases h : p.1 = k
  · simp [beq_iff_eq.mpr h, h]
  · simp [h]

theorem keysOf_dictInsert_of_not_any {α : Type} (d : List (String × α)) (k : String)
    (v : α) (hany : d.any (fun p => p.1 == k) = false) :
    keysOf (dictInsert d k v) = keysOf d ++ [k] := by
  unfold dictInsert
  rw [if_neg (by simp [hany])]
  simp [keysOf]

theorem nodup_keysOf_dictInsert {α : Type} (d : List (String × α)) (k : String)
    (v : α) (h : (keysOf d).Nodup) : (keysOf (dictInsert d k v)).Nodup := by
  by_cases hany : d.any (fun p => p.1 == k) = true
  · rw [keysOf_dictInsert_of_any d k v hany]; exact h
  · rw [keysOf_dictInsert_of_not_any d k v (Bool.eq_false_iff.mpr hany)]
    have hk : k ∉ keysOf d := by
      intro hmem
      obtain ⟨p, hp, hpk⟩ := List.mem_map.mp hmem
      exact (List.any_eq_false.mp (Bool.eq_false_iff.mpr hany) p hp)
        (by simp [hpk])
    simp [List.nodup_append, h, hk]

theorem mem_dictInsert {α : Type} {p : String × α} {d : List (String × α)}
    {k : String} {v : α} (h : p ∈ dictInsert d k v) : p ∈ d ∨ p = (k, v) := by
  unfold dictInsert at h
  by_cases hany : d.any (fun p => p.1 == k) = true
  · rw [if_pos hany] at h
    obtain ⟨q, hq, hqe⟩ := List.mem_map.mp h
    by_cases hk : q.1 = k
    · right
      rw [← hqe, if_pos (beq_iff_eq.mpr hk)]
    · left
      rw [← hqe, if_neg (by simpa using hk)]
      exact hq
  · rw [if_neg hany] at h
    rcases List.mem_append.mp h with h1 | h1
    · exact Or.inl h1
    · exact Or.inr (by simpa using h1)

theorem dlookup_of_mem {α : Type} {d : List (String × α)} {k : String} {v : α}
    (hnd : (keysOf d).Nodup) (h : (k, v) ∈ d) : dlookup k d = some v := by
  induction d with
  | nil => simp at h
  | cons p t ih =>
    have hnd' : p.1 ∉ List.map Prod.fst t ∧ (List.map Prod.fst t).Nodup := by
      simp only [keysOf, List.map_cons, List.nodup_cons] at hnd
      exact hnd
    rcases List.mem_cons.mp h with h1 | h1
    · rw [← h1]
      simp [dlookup]
    · have hk : k ∈ List.map Prod.fst t := List.mem_map.mpr ⟨(k, v), h1, rfl⟩
      have hp1 : p.1 ≠ k := fun hcon => hnd'.1 (hcon ▸ hk)
      simp only [dlookup, if_neg hp1]
      exact ih hnd'.2 h1

theorem mem_of_dlookup {α : Type} {d : List (String × α)} {k : String} {v : α}
    (h : dlookup k d = some v) : (k, v) ∈ d := by
  induction d with
  | nil => simp [dlookup] at h
  | cons p t ih =>
    by_cases hp : p.1 = k
    · simp only [dlookup, if_pos hp, Option.some.injEq] at h
      have hpkv : p = (k, v) := by
        cases p
        simp_all
      rw [← hpkv]
      exact List.mem_cons_self p t
    · simp only [dlookup, if_neg hp] at h
      exact List.mem_cons_of_mem p (ih h)

/-! ### `getLast?` and `Pairwise` helpers -/

theorem getLast?_cons_or {α : Type} (a : α) (l : List α) :
    (a :: l).getLast? = l.getLast?.or (some a) := by
  cases l with
  | nil => rfl
  | cons b t =>
    rw [List.getLast?_cons_cons]
    cases hbt : (b :: t).getLast? with
    | none => exact absurd (List.getLast?_eq_none_iff.mp hbt) (by simp)
    | some x => rfl

theorem getLast?_mem {α : Type} : ∀ {l : List α} {e : α},
    l.getLast? = some e → e ∈ l := by
  intro l
  induction l with
  | nil => intro e h; simp at h
  | cons a t ih =>
    intro e h
    rw [getLast?_cons_or] at h
    cases ht : t.getLast? with
    | none => rw [ht] at h; simp only [Option.or] at h; simp at h; simp [h]
    | some x =>
      rw [ht] at h
      simp only [Option.or] at h
      have hx : x = e := by simpa using h
      exact List.mem_cons_of_mem a (ih (hx ▸ ht))

theorem pairwise_getLast? {α : Type} {R : α → α → Prop} : ∀ {l : List α} {e : α},
    l.Pairwise R → l.getLast? = some e → ∀ x ∈ l, x = e ∨ R x e := by
  intro l
  induction l with
  | nil => intro e _ _ x hx; simp at hx
  | cons a t ih =>
    intro e hpw hlast x hx
    obtain ⟨ha, hpt⟩ := List.pairwise_cons.mp hpw
    cases ht : t.getLast? with
    | none =>
      have : t = [] := List.getLast?_eq_none_iff.mp ht
      subst this
      simp at hx
      rw [getLast?_cons_or, ht] at hlast
      simp only [Option.or] at hlast
      left
      rw [hx]
      exact (Option.some.injEq _ _ ▸ hlast :)
    | some y =>
      rw [getLast?_cons_or, ht] at hlast
      simp only [Option.or] at hlast
      have hy : y = e := by simpa using hlast
      subst hy
      rcases List.mem_cons.mp hx with h1 | h1
      · right; rw [h1]; exact ha y (getLast?_mem ht)
      · exact ih hpt ht x h1

theorem getLast?_filter {α : Type} (P : α → Bool) : ∀ {l : List α} {e : α},
    l.getLast? = some e → P e = true → (l.filter P).getLast? = some e := by
  intro l
  induction l with
  | nil => intro e h _; simp at h
  | cons a t ih =>
    intro e hlast hPe
    cases ht : t.getLast? with
    | none =>
      have : t = [] := List.getLast?_eq_none_iff.mp ht
      subst this
      rw [getLast?_cons_or] at hlast
      simp only [Option.or] at hlast
      have ha : a = e := by simpa using hlast
      subst ha
      simp [List.filter, hPe]
    | some y =>
      rw [getLast?_cons_or, ht] at hlast
      simp only [Option.or] at hlast
      have hy : y = e := by simpa using hlast
      subst hy
      have hft := ih ht hPe
      rw [List.filter_cons]
      by_cases hPa : P a = true
      · rw [if_pos hPa, getLast?_cons_or, hft]
        rfl
      · rw [if_neg hPa]
        exact hft

/-! ### The deduplication fold of `discover_all` -/

theorem dlookup_foldDict (l : List Encoder) (d : List (String × Encoder))
    (k : String) :
    dlookup k (l.foldl (fun d e => dictInsert d e.device_name e) d) =
      ((l.filter (fun e => e.device_name == k)).getLast?).or (dlookup k d) := by
  induction l generalizing d with
  | nil => simp [Option.or]
  | cons e t ih =>
    rw [List.foldl_cons, ih, List.filter_cons]
    by_cases h : e.device_name = k
    · rw [if_pos (by simpa using h), dlookup_dictInsert, if_pos h,
        getLast?_cons_or, Option.or_assoc]
      rfl
    · rw [if_neg (by simpa using h), dlookup_dictInsert, if_neg h]

theorem nodup_keysOf_foldDict (l : List Encoder) (d : List (String × Encoder))
    (h : (keysOf d).Nodup) :
    (keysOf (l.foldl (fun d e => dictInsert d e.device_name e) d)).Nodup := by
  induction l generalizing d with
  | nil => exact h
  | cons e t ih =>
    rw [List.foldl_cons]
    exact ih _ (nodup_keysOf_dictInsert d e.device_name e h)

theorem pairInv_foldDict (l : List Encoder) (d : List (String × Encoder))
    (h : ∀ p ∈ d, p.1 = p.2.device_name) :
    ∀ p ∈ l.foldl (fun d e => dictInsert d e.device_name e) d,
      p.1 = p.2.device_name := by
  induction l generalizing d with
  | nil => exact h
  | cons e t ih =>
    rw [List.foldl_cons]
    apply ih
    intro p hp
    rcases mem_dictInsert hp with h1 | h1
    · exact h p h1
    · rw [h1]

/-! ### Comparator facts and a stability lemma for `mergeSort` -/

theorem le_desc_trans : ∀ a b c : Encoder,
    le_desc a b = true → le_desc b c = true → le_desc a c = true := by
  intro a b c
  simp only [le_desc, decide_eq_true_eq]
  omega

theorem le_desc_total : ∀ a b : Encoder, (le_desc a b || le_desc b a) = true := by
  intro a b
  simp only [le_desc, Bool.or_eq_true, decide_eq_true_eq]
  omega

theorem le_asc_trans : ∀ a b c : Encoder,
    le_asc a b = true → le_asc b c = true → le_asc a c = true := by
  intro a b c
  simp only [le_asc, decide_eq_true_eq]
  omega

theorem le_asc_total : ∀ a b : Encoder, (le_asc a b || le_asc b a) = true := by
  intro a b
  simp only [le_asc, Bool.or_eq_true, decide_eq_true_eq]
  omega

/-- Stability of `mergeSort` in filter form: the subsequence of elements
satisfying `P` keeps its relative order through the sort, provided any two
`P`-elements are tied under the comparator. -/
theorem filter_mergeSort_tied {α : Type} {le : α → α → Bool}
    (htrans : ∀ a b c : α, le a b = true → le b c = true → le a c = true)
    (htotal : ∀ a b : α, (le a b || le b a) = true)
    (P : α → Bool) (htied : ∀ x y : α, P x = true → P y = true → le x y = true)
    (l : List α) : (l.mergeSort le).filter P = l.filter P := by
  have hc : (l.filter P).Pairwise (fun a b => le a b = true) := by
    apply List.pairwise_of_forall_mem_list
    intro a ha b hb
    exact htied a b (List.mem_filter.mp ha).2 (List.mem_filter.mp hb).2
  have h1 : (l.filter P).Sublist (l.mergeSort le) :=
    List.sublist_mergeSort htrans htotal hc (List.filter_sublist l)
  have h2 : (l.filter P).Sublist ((l.mergeSort le).filter P) := by
    have := h1.filter P
    rwa [List.filter_eq_self.mpr (fun a ha => (List.mem_filter.mp ha).2)] at this
  have h3 : ((l.mergeSort le).filter P).length = (l.filter P).length :=
    ((List.mergeSort_perm l le).filter P).length_eq
  exact (h2.eq_of_length h3.symm).symm

/-! ### Characterisation of `discover_all` membership -/

/-- An encoder survives `discover_all` exactly when it is the last entry
with its `device_name` in the descending-priority-sorted working list. -/
theorem mem_discover_all {results : List (Except String (List Encoder))}
    {e : Encoder} :
    e ∈ DiscoveryService.discover_all results ↔
      (((allEncoders results).mergeSort le_desc).filter
        (fun x => x.device_name == e.device_name)).getLast? = some e := by
  unfold DiscoveryService.discover_all
  rw [List.mem_mergeSort]
  constructor
  · intro h
    obtain ⟨p, hp, hpe⟩ := List.mem_map.mp h
    have hkey : p.1 = p.2.device_name := pairInv_foldDict _ _ (by simp) p hp
    have hmem : (e.device_name, e) ∈
        ((allEncoders results).mergeSort le_desc).foldl
          (fun d e => dictInsert d e.device_name e) [] := by
      have h2 : p.2 = e := hpe
      have h1 : p.1 = e.device_name := by rw [hkey, h2]
      have hpq : p = (e.device_name, e) := Prod.ext_iff.mpr ⟨h1, h2⟩
      rwa [hpq] at hp
    have hlook := dlookup_of_mem (nodup_keysOf_foldDict _ _ (by simp [keysOf])) hmem
    rw [dlookup_foldDict, dlookup_nil, Option.or_none] at hlook
    exact hlook
  · intro h
    have hlook : dlookup e.device_name
        (((allEncoders results).mergeSort le_desc).foldl
          (fun d e => dictInsert d e.device_name e) []) = some e := by
      rw [dlookup_foldDict, dlookup_nil, Option.or_none, h]
    exact List.mem_map.mpr ⟨(e.device_name, e), mem_of_dlookup hlook, rfl⟩

/-! ### Derived facts about `discover_all` -/

theorem names_nodup_discover_all (results : List (Except String (List Encoder))) :
    ((DiscoveryService.discover_all results).map (fun e => e.device_name)).Nodup := by
  unfold DiscoveryService.discover_all
  have hpair := pairInv_foldDict ((allEncoders results).mergeSort le_desc) []
    (by simp)
  have hkeys :
      ((((allEncoders results).mergeSort le_desc).foldl
          (fun d e => dictInsert d e.device_name e) []).map Prod.snd).map
        (fun e => e.device_name) =
      keysOf (((allEncoders results).mergeSort le_desc).foldl
          (fun d e => dictInsert d e.device_name e) []) := by
    rw [List.map_map]
    apply List.map_congr_left
    intro p hp
    exact (hpair p hp).symm
  have hperm := (List.mergeSort_perm
    ((((allEncoders results).mergeSort le_desc).foldl
        (fun d e => dictInsert d e.device_name e) []).map Prod.snd) le_asc).map
    (fun e => e.device_name)
  rw [hperm.nodup_iff, hkeys]
  exact nodup_keysOf_foldDict _ _ (by simp [keysOf])

theorem discover_all_min_priority {results : List (Except String (List Encoder))}
    {e : Encoder} (h : e ∈ DiscoveryService.discover_all results) :
    e ∈ allEncoders results ∧
      ∀ x ∈ allEncoders results, x.device_name = e.device_name →
        e.priority ≤ x.priority := by
  rw [mem_discover_all] at h
  have hemem : e ∈ ((allEncoders results).mergeSort le_desc).filter
      (fun x => x.device_name == e.device_name) := getLast?_mem h
  have he_all : e ∈ allEncoders results :=
    List.mem_mergeSort.mp (List.mem_filter.mp hemem).1
  refine ⟨he_all, ?_⟩
  intro x hx hxe
  have hxf : x ∈ ((allEncoders results).mergeSort le_desc).filter
      (fun y => y.device_name == e.device_name) :=
    List.mem_filter.mpr ⟨List.mem_mergeSort.mpr hx, by simpa using hxe⟩
  have hpw : (((allEncoders results).mergeSort le_desc).filter
      (fun y => y.device_name == e.device_name)).Pairwise
      (fun a b => le_desc a b = true) :=
    List.Pairwise.sublist (List.filter_sublist _)
      (List.sorted_mergeSort le_desc_trans le_desc_total _)
  rcases pairwise_getLast? hpw h x hxf with h1 | h1
  · rw [h1]
  · simpa [le_desc] using h1

theorem discover_all_covers {results : List (Except String (List Encoder))}
    {x : Encoder} (hx : x ∈ allEncoders results) :
    ∃ e ∈ DiscoveryService.discover_all results,
      e.device_name = x.device_name := by
  have hxf : x ∈ ((allEncoders results).mergeSort le_desc).filter
      (fun y => y.device_name == x.device_name) :=
    List.mem_filter.mpr ⟨List.mem_mergeSort.mpr hx, by simp⟩
  cases hl : (((allEncoders results).mergeSort le_desc).filter
      (fun y => y.device_name == x.device_name)).getLast? with
  | none =>
    rw [List.getLast?_eq_none_iff] at hl
    rw [hl] at hxf
    simp at hxf
  | some w =>
    have hwmem := getLast?_mem hl
    have hwname : w.device_name = x.device_name := by
      simpa using (List.mem_filter.mp hwmem).2
    refine ⟨w, ?_, hwname⟩
    rw [mem_discover_all, hwname]
    exact hl

theorem discover_all_sorted (results : List (Except String (List Encoder))) :
    (DiscoveryService.discover_all results).Pairwise
      (fun a b => a.priority ≤ b.priority) := by
  unfold DiscoveryService.discover_all
  exact (List.sorted_mergeSort le_asc_trans le_asc_total _).imp
    (fun h => by simpa [le_asc] using h)

theorem mem_allEncoders_foldl_acc (results : List (Except String (List Encoder)))
    (acc : List Encoder) (x : Encoder) (hx : x ∈ acc) :
    x ∈ results.foldl
      (fun acc r => match r with | .ok l => acc ++ l | .error _ => acc) acc := by
  induction results generalizing acc with
  | nil => exact hx
  | cons r t ih =>
    cases r with
    | ok l => exact ih _ (List.mem_append.mpr (Or.inl hx))
    | error e => exact ih _ hx

theorem mem_foldl_of_ok (results : List (Except String (List Encoder)))
    (acc : List Encoder) (x : Encoder) (L : List Encoder)
    (hL : Except.ok L ∈ results) (hx : x ∈ L) :
    x ∈ results.foldl
      (fun acc r => match r with | .ok l => acc ++ l | .error _ => acc) acc := by
  induction results generalizing acc with
  | nil => simp at hL
  | cons r t ih =>
    rcases List.mem_cons.mp hL with h1 | h1
    · rw [← h1]
      simp only [List.foldl_cons]
      exact mem_allEncoders_foldl_acc t _ x (List.mem_append.mpr (Or.inr hx))
    · cases r with
      | ok l => exact ih _ h1
      | error e => exact ih _ h1

theorem mem_allEncoders_of_ok {results : List (Except String (List Encoder))}
    {L : List Encoder} {x : Encoder} (hL : Except.ok L ∈ results) (hx : x ∈ L) :
    x ∈ allEncoders results :=
  mem_foldl_of_ok results [] x L hL hx

theorem discover_all_last_among_min {results : List (Except String (List Encoder))}
    {e : Encoder} (h : e ∈ DiscoveryService.discover_all results) :
    ((allEncoders results).filter
      (fun x => x.priority == e.priority && x.device_name == e.device_name)).getLast?
      = some e := by
  rw [mem_discover_all] at h
  have h1 := getLast?_filter (fun x => x.priority == e.priority) h (by simp)
  rw [List.filter_filter] at h1
  rwa [filter_mergeSort_tied le_desc_trans le_desc_total _ ?_] at h1
  intro x y hx hy
  simp only [Bool.and_eq_true, beq_iff_eq] at hx hy
  simp only [le_desc, decide_eq_true_eq]
  omega

/-! ### Cache and fingerprint lemmas -/

theorem dlookup_dictErase_self {α : Type} (d : List (String × α)) (k : String) :
    dlookup k (dictErase d k) = none := by
  rw [dlookup_eq_none]
  intro p hp
  have := (List.mem_filter.mp hp).2
  simpa using this

theorem readChunks_eq_take : ∀ (n chunkSize : Nat) (f : List Nat),
    readChunks n chunkSize f = f.take (n * chunkSize) := by
  intro n
  induction n with
  | zero => intro cs f; simp [readChunks]
  | succ n ih =>
    intro cs f
    by_cases hcs : cs = 0
    · subst hcs
      simp [readChunks]
    · cases f with
      | nil => simp [readChunks]
      | cons b bs =>
        have hne : (b :: bs).take cs ≠ [] := by
          cases cs with
          | zero => exact absurd rfl hcs
          | succ m => simp
        rw [readChunks, if_neg hne, ih]
        rw [show (n + 1) * cs = cs + n * cs by ring]
        rw [List.take_add]

/-! ### Claim theorems: discovery -/

/-- C1: For every collection of discoverer outputs, `discover_all` returns
exactly one encoder per distinct `device_name` (the returned names are
duplicate-free and cover exactly the discovered names); each survivor is one
of the discovered entries and its priority is the minimum priority among all
discovered entries with its `device_name`; and the returned list is sorted
ascending by priority. -/
theorem discover_all_dedup_min_sorted
    (results : List (Except String (List Encoder))) :
    ((DiscoveryService.discover_all results).map (fun e => e.device_name)).Nodup ∧
    (∀ x ∈ allEncoders results, ∃ e ∈ DiscoveryService.discover_all results,
        e.device_name = x.device_name) ∧
    (∀ e ∈ DiscoveryService.discover_all results,
        e ∈ allEncoders results ∧
        ∀ x ∈ allEncoders results, x.device_name = e.device_name →
          e.priority ≤ x.priority) ∧
    (DiscoveryService.discover_all results).Pairwise
        (fun a b => a.priority ≤ b.priority) :=
  ⟨names_nodup_discover_all results,
   fun _ hx => discover_all_covers hx,
   fun _ he => discover_all_min_priority he,
   discover_all_sorted results⟩

/-- C1 witness: on `sampleResults` (device name `DEV` discovered with
priorities 2, 1, 1 plus the CPU fallback), the survivor `encDevC` is a
discovered entry and its priority 1 is below the duplicate's priority 2. -/
theorem discover_all_dedup_min_sorted_witness :
    encDevC ∈ allEncoders sampleResults ∧
    encDevC.priority ≤ encDevA.priority := by
  have hev : DiscoveryService.discover_all sampleResults = [encDevC, encCpu] := by
    simp [DiscoveryService.discover_all, allEncoders, sampleResults,
      List.mergeSort, dictInsert, le_desc, le_asc, encDevA, encDevB, encDevC,
      encCpu]
  have hmem : encDevC ∈ DiscoveryService.discover_all sampleResults := by
    rw [hev]
    simp
  have h := (discover_all_dedup_min_sorted sampleResults).2.2.1 encDevC hmem
  refine ⟨h.1, h.2 encDevA ?_ ?_⟩
  · simp [allEncoders, sampleResults]
  · simp [encDevA, encDevC]

/-- C2: `CpuDiscoverer.discover` unconditionally returns exactly one
candidate — the software x264 encoder (`libx264` presented as
`CPU (libx264)`) with priority 10 — and consequently the Discovery Service's
result over the registered discoverers is never empty, whatever the
environment. -/
theorem cpu_discoverer_guarantees_nonempty :
    CpuDiscoverer.discover = [encCpu] ∧ encCpu.name = "libx264" ∧
    encCpu.device_name = "CPU (libx264)" ∧ encCpu.priority = 10 ∧
    ∀ env : SysEnv, DiscoveryService.discover_all_env env ≠ [] := by
  refine ⟨rfl, rfl, rfl, rfl, ?_⟩
  intro env hcon
  have hok : Except.ok CpuDiscoverer.discover ∈
      DiscoveryService.runDiscoverers env := by
    simp [DiscoveryService.runDiscoverers]
  have hcpu : encCpu ∈ allEncoders (DiscoveryService.runDiscoverers env) :=
    mem_allEncoders_of_ok hok (by simp [CpuDiscoverer.discover, encCpu])
  obtain ⟨e, he, _⟩ := discover_all_covers hcpu
  unfold DiscoveryService.discover_all_env at hcon
  rw [hcon] at he
  simp at he

/-- C2 witness: on the concrete environment `sampleEnv` the full discovery
pipeline returns a non-empty list. -/
theorem cpu_discoverer_guarantees_nonempty_witness :
    DiscoveryService.discover_all_env sampleEnv ≠ [] :=
  cpu_discoverer_guarantees_nonempty.2.2.2.2 sampleEnv

/-- C8: On Linux with `nvidia-smi` present, a failing probe command makes
`NvencDiscoverer.discover` degrade gracefully to exactly one best-guess
candidate bound to device 0 with priority 1 — returned normally
(`.ok`, the `HardwareDiscoveryError` is caught, never propagated). -/
theorem nvenc_probe_failure_degrades (env : SysEnv) (msg : String)
    (hsys : env.system = "linux") (hsmi : env.hasNvidiaSmi = true)
    (hprobe : env.nvidiaSmiOutput = .error msg) :
    NvencDiscoverer.discover env = .ok [encNvFallback] ∧
    encNvFallback.device_id = .idx 0 ∧ encNvFallback.priority = 1 := by
  refine ⟨?_, rfl, rfl⟩
  unfold NvencDiscoverer.discover
  rw [hprobe]
  simp [hsys, hsmi, encNvFallback]

/-- C8 witness: instantiated on `sampleEnvNvFail`. -/
theorem nvenc_probe_failure_degrades_witness :
    NvencDiscoverer.discover sampleEnvNvFail = .ok [encNvFallback] :=
  (nvenc_probe_failure_degrades sampleEnvNvFail
    "nvidia-smi exited with status 1" rfl rfl rfl).1

/-- C10: For any survivor `e` of `discover_all`, `e` is the entry
contributed latest (in discoverer registration/concatenation order) among
the discovered entries sharing its `device_name` and its priority — and that
priority is the minimum for the name, so among equal-minimal-priority
duplicates the last contribution wins. -/
theorem discover_all_tiebreak_last {results : List (Except String (List Encoder))}
    {e : Encoder} (h : e ∈ DiscoveryService.discover_all results) :
    ((allEncoders results).filter
        (fun x => x.priority == e.priority && x.device_name == e.device_name)).getLast?
      = some e ∧
    ∀ x ∈ allEncoders results, x.device_name = e.device_name →
      e.priority ≤ x.priority :=
  ⟨discover_all_last_among_min h, (discover_all_min_priority h).2⟩

/-- C10 witness: `encDevB` and `encDevC` share device name `DEV` and the
minimal priority 1; the later contribution `encDevC` is the survivor and is
the last minimal-priority entry in concatenation order. -/
theorem discover_all_tiebreak_last_witness :
    ((allEncoders sampleResults).filter
        (fun x => x.priority == encDevC.priority &&
          x.device_name == encDevC.device_name)).getLast? = some encDevC := by
  have hev : DiscoveryService.discover_all sampleResults = [encDevC, encCpu] := by
    simp [DiscoveryService.discover_all, allEncoders, sampleResults,
      List.mergeSort, dictInsert, le_desc, le_asc, encDevA, encDevB, encDevC,
      encCpu]
  have hmem : encDevC ∈ DiscoveryService.discover_all sampleResults := by
    rw [hev]
    simp
  exact (discover_all_tiebreak_last hmem).1

/-! ### Claim theorems: validator -/

/-- `_run_ffmpeg_test` has no code path that returns `False`: it returns
`True` on success and raises `EncoderValidationError` on every failure
(nonzero exit or timeout), which makes the fallback branch of `validate`
unreachable. -/
theorem run_ffmpeg_test_never_returns_false (attemptOk : String → Bool)
    (encoder : Encoder) (path : String) :
    run_ffmpeg_test attemptOk encoder path ≠ .ok false := by
  unfold run_ffmpeg_test
  by_cases h : attemptOk path = true <;> simp [h]

/-- C3 (code evaluated at the failing input): the candidate is supported,
the primary attempt against the original video fails, the fallback clip
exists, and an attempt against it would succeed — yet `validate` returns
absent after a single process spawn.  The `EncoderValidationError` raised by
the failing primary `_run_ffmpeg_test` jumps straight to the handler, so the
fallback retry the spec (and the function's own log messages) describe is
never reached. -/
theorem validate_fallback_unreachable_on_primary_failure :
    EncoderValidator.validate (fun n => n == "h264_nvenc")
      (fun p => p == "converted.mkv") true encNvFallback
      "original.mp4" "converted.mkv" = (none, 1) := by
  rfl

/-- C5: a candidate whose name is not in the memoized supported-encoder set
is rejected immediately: `validate` returns absent with zero test-encode
processes spawned (and the embedding is total — the Python code converts any
raised error to `None`, so `validate` never raises). -/
theorem validate_unsupported_no_spawn (supported : String → Bool)
    (attemptOk : String → Bool) (convExists : Bool) (encoder : Encoder)
    (orig conv : String) (h : supported encoder.name = false) :
    EncoderValidator.validate supported attemptOk convExists encoder orig conv
      = (none, 0) := by
  unfold EncoderValidator.validate
  simp [h]

/-- C5 witness: the CPU encoder (`libx264`) against a supported set holding
only `h264_nvenc`. -/
theorem validate_unsupported_no_spawn_witness :
    EncoderValidator.validate (fun n => n == "h264_nvenc")
      (fun _ => true) true encCpu "original.mp4" "converted.mkv" = (none, 0) :=
  validate_unsupported_no_spawn (fun n => n == "h264_nvenc") (fun _ => true)
    true encCpu "original.mp4" "converted.mkv" (by decide)

/-! ### Claim theorems: cache -/

/-- `get` right after `set` on the same key, within the expiry window,
returns exactly the stored list and leaves the cache untouched. -/
theorem cache_get_after_set (config : ValidationConfig) (cache : CacheDict)
    (k : String) (encs : List Encoder) (t1 t2 : Int)
    (hlt : t2 - t1 < config.cache_expiry_seconds) :
    EncoderCache.get config (EncoderCache.set cache t1 k encs) t2 k =
      (some encs, EncoderCache.set cache t1 k encs) := by
  have hset : dlookup k (EncoderCache.set cache t1 k encs) =
      some { encoders := encs, timestamp := t1 } := by
    unfold EncoderCache.set
    rw [dlookup_dictInsert]
    simp
  unfold EncoderCache.get
  rw [hset]
  simp [hlt]

/-- `get` never returns a stale entry: a successful lookup exposes an entry
that exists and whose age is below `cache_expiry_seconds`. -/
theorem cache_never_returns_stale (config : ValidationConfig)
    (cache : CacheDict) (now : Int) (k : String) (r : List Encoder)
    (c2 : CacheDict) (h : EncoderCache.get config cache now k = (some r, c2)) :
    ∃ entry, dlookup k cache = some entry ∧ r = entry.encoders ∧
      now - entry.timestamp < config.cache_expiry_seconds := by
  unfold EncoderCache.get at h
  cases hdl : dlookup k cache with
  | none =>
    rw [hdl] at h
    simp at h
  | some entry =>
    rw [hdl] at h
    dsimp only at h
    by_cases hexp : now - entry.timestamp < config.cache_expiry_seconds
    · rw [if_pos hexp] at h
      simp only [Prod.mk.injEq, Option.some.injEq] at h
      exact ⟨entry, rfl, h.1.symm, hexp⟩
    · rw [if_neg hexp] at h
      simp at h

/-- C4: a `get` after a `set` within `cache_expiry_seconds` returns exactly
the stored sequence; a `get` after expiry returns absent and evicts the
entry, so a subsequent `set` on the same key followed by an in-time `get`
returns the freshly stored data; and the cache never returns an expired
entry. -/
theorem cache_roundtrip_expiry_eviction (config : ValidationConfig)
    (cache : CacheDict) (k : String) (encs : List Encoder) (t1 t2 : Int) :
    (t2 - t1 < config.cache_expiry_seconds →
      EncoderCache.get config (EncoderCache.set cache t1 k encs) t2 k =
        (some encs, EncoderCache.set cache t1 k encs)) ∧
    (¬ t2 - t1 < config.cache_expiry_seconds →
      (EncoderCache.get config (EncoderCache.set cache t1 k encs) t2 k).1 = none ∧
      dlookup k (EncoderCache.get config
        (EncoderCache.set cache t1 k encs) t2 k).2 = none ∧
      ∀ (encs2 : List Encoder) (t3 t4 : Int),
        t4 - t3 < config.cache_expiry_seconds →
        (EncoderCache.get config
            (EncoderCache.set
              (EncoderCache.get config (EncoderCache.set cache t1 k encs) t2 k).2
              t3 k encs2) t4 k).1 = some encs2) ∧
    (∀ (now : Int) (r : List Encoder) (c2 : CacheDict),
      EncoderCache.get config cache now k = (some r, c2) →
      ∃ entry, dlookup k cache = some entry ∧ r = entry.encoders ∧
        now - entry.timestamp < config.cache_expiry_seconds) := by
  have hset : dlookup k (EncoderCache.set cache t1 k encs) =
      some { encoders := encs, timestamp := t1 } := by
    unfold EncoderCache.set
    rw [dlookup_dictInsert]
    simp
  refine ⟨cache_get_after_set config cache k encs t1 t2, ?_, ?_⟩
  · intro hge
    have hev : EncoderCache.get config (EncoderCache.set cache t1 k encs) t2 k =
        (none, dictErase (EncoderCache.set cache t1 k encs) k) := by
      unfold EncoderCache.get
      rw [hset]
      simp [hge]
    refine ⟨by rw [hev], by rw [hev]; exact dlookup_dictErase_self _ k, ?_⟩
    intro encs2 t3 t4 hlt
    rw [cache_get_after_set config _ k encs2 t3 t4 hlt]
  · intro now r c2 h
    exact cache_never_returns_stale config cache now k r c2 h

/-- C4 witness: within the default one-hour expiry a set-then-get at times
100 and 200 returns the stored list; at time 4000 the entry written at time
0 is expired, evicted, and a fresh set-then-get succeeds. -/
theorem cache_roundtrip_expiry_eviction_witness :
    EncoderCache.get {} (EncoderCache.set [] 100 "vhash" [encCpu]) 200 "vhash"
      = (some [encCpu], EncoderCache.set [] 100 "vhash" [encCpu]) ∧
    (EncoderCache.get {} (EncoderCache.set [] 0 "vhash" [encCpu]) 4000 "vhash").1
      = none := by
  exact ⟨(cache_roundtrip_expiry_eviction {} [] "vhash" [encCpu] 100 200).1
      (by decide),
    ((cache_roundtrip_expiry_eviction {} [] "vhash" [encCpu] 0 4000).2.1
      (by decide)).1⟩

/-! ### Claim theorems: fingerprinting -/

/-- C9 counterexample: the claim says `get_video_hash` returns absent
whenever the file cannot be opened; but only `FileNotFoundError` is caught.
An open failure of any other kind (here modelled by `PermissionError` on an
existing but unreadable file) propagates out of the method instead of
producing absent. -/
theorem get_video_hash_permission_error_propagates :
    EncoderCache.get_video_hash (fun _ => "d41d8cd9") 4096
        (.error .permissionDenied) = .error .permissionDenied ∧
    (Except.error OpenErr.permissionDenied : Except OpenErr (Option String)) ≠
      Except.ok none := by
  exact ⟨rfl, by simp⟩

/-- C9 (amended): when the file does not exist (`FileNotFoundError`, the
one open failure the code catches) `get_video_hash` returns absent rather
than raising; for every readable file it returns a fingerprint computed from
at most 64 chunks of `chunkSize` bytes — exactly the first
`64 * chunkSize` bytes, a bounded prefix, never the whole file. -/
theorem get_video_hash_not_found_and_bounded_prefix
    (hash : List Nat → String) (chunkSize : Nat) (bytes : List Nat) :
    EncoderCache.get_video_hash hash chunkSize (.error .notFound) = .ok none ∧
    EncoderCache.get_video_hash hash chunkSize (.ok bytes) =
      .ok (some (hash (bytes.take (64 * chunkSize)))) := by
  refine ⟨rfl, ?_⟩
  unfold EncoderCache.get_video_hash
  dsimp only
  rw [readChunks_eq_take]

/-! ### Claim theorems: detector orchestrator -/

/-- C6: when the fingerprint is computable and the cache holds a live
(non-expired) entry for it, `find_and_validate_functional_encoders` returns
exactly the cached sequence and invokes neither the discovery service nor
the validator (both call counters are zero, and no cache write happens). -/
theorem detector_cache_hit_short_circuits
    (config : ValidationConfig) (cache : CacheDict) (now : Int)
    (hashOf : String → Option String)
    (discoverResults : List (Except String (List Encoder)))
    (validatorResult : Encoder → Option Encoder)
    (path h : String) (l : List Encoder)
    (hhash : hashOf path = some h)
    (hget : (EncoderCache.get config cache now h).1 = some l) :
    HardwareDetector.find_and_validate_functional_encoders config cache now
        hashOf discoverResults validatorResult path =
      FindResult.mk l (EncoderCache.get config cache now h).2 0 0 0 := by
  unfold HardwareDetector.find_and_validate_functional_encoders
  rw [hhash]
  dsimp only
  rcases hg : EncoderCache.get config cache now h with ⟨r, c1⟩
  rw [hg] at hget
  dsimp only at hget
  subst hget
  rfl

/-- C6 witness: a cache pre-seeded for fingerprint `vhash` with `[encCpu]`
at time 100, queried at time 200, short-circuits the whole pipeline. -/
theorem detector_cache_hit_short_circuits_witness :
    HardwareDetector.find_and_validate_functional_encoders {} sampleCacheLive
        200 (fun _ => some "vhash") [.ok [encCpu]] (fun e => some e) "v.mp4" =
      FindResult.mk [encCpu] sampleCacheLive 0 0 0 := by
  have h := detector_cache_hit_short_circuits {} sampleCacheLive 200
    (fun _ => some "vhash") [.ok [encCpu]] (fun e => some e) "v.mp4" "vhash"
    [encCpu] rfl (by decide)
  rw [h]
  have h2 : (EncoderCache.get {} sampleCacheLive 200 "vhash").2 =
      sampleCacheLive := by decide
  rw [h2]

/-- C7 counterexample: with an expired entry for the file's fingerprint in
the cache, a computable fingerprint, and a validator failing every
candidate, the call returns the empty sequence — but the final cache
differs from the initial one, because the initial lookup evicted the
expired entry.  The claim's "leaves the cache unchanged" is therefore false
as stated. -/
theorem detector_total_failure_cache_changed :
    (HardwareDetector.find_and_validate_functional_encoders {} sampleCacheStale
        4000 (fun _ => some "vhash") [.ok [encCpu]] (fun _ => none)
        "v.mp4").encoders = [] ∧
    (HardwareDetector.find_and_validate_functional_encoders {} sampleCacheStale
        4000 (fun _ => some "vhash") [.ok [encCpu]] (fun _ => none)
        "v.mp4").cache ≠ sampleCacheStale := by
  have hev : HardwareDetector.find_and_validate_functional_encoders {}
      sampleCacheStale 4000 (fun _ => some "vhash") [.ok [encCpu]]
      (fun _ => none) "v.mp4" = FindResult.mk [] [] 1 1 0 := by
    simp [HardwareDetector.find_and_validate_functional_encoders,
      EncoderCache.get, sampleCacheStale, dlookup, dictErase,
      DiscoveryService.discover_all, allEncoders, List.mergeSort, dictInsert,
      le_desc, le_asc, encCpu]
  rw [hev]
  refine ⟨rfl, ?_⟩
  simp [sampleCacheStale]

/-- C7 (amended): the detector performs a cache write only when the
survivor list is non-empty and a fingerprint was computable.  When every
candidate fails validation it returns the empty sequence (the function is
total — no exception escapes) and performs no cache write: the final cache
is the initial cache when no fingerprint was computable, and otherwise the
cache state left by the initial lookup — which may differ from the initial
cache only by the eviction of an expired entry. -/
theorem detector_no_write_on_total_failure
    (config : ValidationConfig) (cache : CacheDict) (now : Int)
    (hashOf : String → Option String)
    (discoverResults : List (Except String (List Encoder)))
    (validatorResult : Encoder → Option Encoder) (path : String) :
    ((HardwareDetector.find_and_validate_functional_encoders config cache now
        hashOf discoverResults validatorResult path).cacheWrites = 1 →
      (HardwareDetector.find_and_validate_functional_encoders config cache now
        hashOf discoverResults validatorResult path).encoders ≠ [] ∧
      hashOf path ≠ none) ∧
    ((∀ e, validatorResult e = none) → hashOf path = none →
      HardwareDetector.find_and_validate_functional_encoders config cache now
          hashOf discoverResults validatorResult path =
        FindResult.mk [] cache 1
          (DiscoveryService.discover_all discoverResults).length 0) ∧
    (∀ h, (∀ e, validatorResult e = none) → hashOf path = some h →
      (EncoderCache.get config cache now h).1 = none →
      HardwareDetector.find_and_validate_functional_encoders config cache now
          hashOf discoverResults validatorResult path =
        FindResult.mk [] (EncoderCache.get config cache now h).2 1
          (DiscoveryService.discover_all discoverResults).length 0) := by
  have hfailnil : (∀ e, validatorResult e = none) →
      (((DiscoveryService.discover_all discoverResults).map
        validatorResult).filterMap id).mergeSort le_asc = [] := by
    intro hfail
    rw [List.filterMap_map]
    have : (DiscoveryService.discover_all discoverResults).filterMap
        (id ∘ validatorResult) = [] :=
      List.filterMap_eq_nil_iff.mpr (fun a _ => hfail a)
    rw [this]
    simp
  refine ⟨?_, ?_, ?_⟩
  · unfold HardwareDetector.find_and_validate_functional_encoders
    cases hh : hashOf path with
    | none =>
      intro hw
      dsimp only at hw
      by_cases hemp : ((((DiscoveryService.discover_all discoverResults).map
          validatorResult).filterMap id).mergeSort le_asc).isEmpty = true
      · rw [if_pos hemp] at hw
        simp at hw
      · rw [if_neg hemp] at hw
        simp at hw
    | some h =>
      dsimp only
      rcases hg : EncoderCache.get config cache now h with ⟨r, c1⟩
      cases r with
      | some cached =>
        intro hw
        dsimp only at hw
        simp at hw
      | none =>
        dsimp only
        by_cases hemp : ((((DiscoveryService.discover_all discoverResults).map
            validatorResult).filterMap id).mergeSort le_asc).isEmpty = true
        · rw [if_pos hemp]
          intro hw
          simp at hw
        · rw [if_neg hemp]
          intro _
          exact ⟨List.isEmpty_eq_false.mp (Bool.eq_false_iff.mpr hemp), by simp⟩
  · intro hfail hh
    unfold HardwareDetector.find_and_validate_functional_encoders
    rw [hh]
    dsimp only
    rw [if_pos (by rw [hfailnil hfail]; rfl)]
    rw [hfailnil hfail]
  · intro h hfail hh hmiss
    unfold HardwareDetector.find_and_validate_functional_encoders
    rw [hh]
    dsimp only
    rcases hg : EncoderCache.get config cache now h with ⟨r, c1⟩
    rw [hg] at hmiss
    dsimp only at hmiss
    subst hmiss
    dsimp only
    rw [if_pos (by rw [hfailnil hfail]; rfl)]
    rw [hfailnil hfail]

/-- C7 witness for the amended theorem: the concrete total-failure scenario
from the counterexample, instantiated through the amended theorem. -/
theorem detector_no_write_on_total_failure_witness :
    HardwareDetector.find_and_validate_functional_encoders {} sampleCacheStale
        4000 (fun _ => some "vhash") [.ok [encCpu]] (fun _ => none) "v.mp4" =
      FindResult.mk [] [] 1 1 0 := by
  have h := (detector_no_write_on_total_failure {} sampleCacheStale 4000
      (fun _ => some "vhash") [.ok [encCpu]] (fun _ => none) "v.mp4").2.2
      "vhash" (fun _ => rfl) rfl (by decide)
  rw [h]
  have h2 : (EncoderCache.get {} sampleCacheStale 4000 "vhash").2 = [] := by
    decide
  have h3 : (DiscoveryService.discover_all [.ok [encCpu]]).length = 1 := by
    simp [DiscoveryService.discover_all, allEncoders, List.mergeSort,
      dictInsert, le_desc, le_asc]
  rw [h2, h3]
